import Mathlib

/-!
Verification development for the FemtoClaw talon registry.

The embedding follows the repository's source:
  - the manifest data model and frontmatter parsing of src/lib.rs,
  - the capability flattening of src/loader.rs,
  - the registry index operations of src/registry.rs.

Strings are modelled as Lean Strings (lists of characters under the hood);
filesystem paths as lists of path components; the persisted index file as a
shadow copy of the index map held next to the in-memory one.  YAML documents
are modelled at the value level (the schema uses strings, booleans, nulls,
sequences and mappings only); the serde derive semantics of the manifest
structs is translated field by field.
-/

namespace Talon

/-! ## Manifest data model (src/lib.rs) -/

structure TalonRuntime where
  kind : String
  version : Option String
deriving DecidableEq

structure EnvVar where
  name : String
  required : Bool
  description : Option String
  default : Option String
deriving DecidableEq

structure CommandArg where
  name : String
  type : String
  required : Bool
  description : Option String
deriving DecidableEq

structure TalonCommand where
  name : String
  description : String
  args : List CommandArg
deriving DecidableEq

structure TalonManifest where
  name : String
  version : String
  description : String
  author : Option String
  license : Option String
  tags : List String
  repository : Option String
  homepage : Option String
  runtime : Option TalonRuntime
  permissions : List String
  environment : List EnvVar
  commands : List TalonCommand
deriving DecidableEq

/-! ## YAML values and the serde encoding of the manifest

`serde_yaml` serialization of the derived `Serialize` instance emits every
field in declaration order, `Option::None` as null and empty vectors as empty
sequences; the derived `Deserialize` instance looks fields up by key, treats
a missing `Option` field as `None` and a missing `#[serde(default)]` vector
field as empty, and fails on a missing required field or a wrong shape. -/

inductive Yaml where
  | str : String → Yaml
  | bool : Bool → Yaml
  | null : Yaml
  | seq : List Yaml → Yaml
  | map : List (String × Yaml) → Yaml

def optStrYaml : Option String → Yaml
  | none => Yaml.null
  | some s => Yaml.str s

def runtimeToYaml (r : TalonRuntime) : Yaml :=
  Yaml.map [("kind", Yaml.str r.kind), ("version", optStrYaml r.version)]

def envVarToYaml (e : EnvVar) : Yaml :=
  Yaml.map [("name", Yaml.str e.name), ("required", Yaml.bool e.required),
    ("description", optStrYaml e.description), ("default", optStrYaml e.default)]

def commandArgToYaml (a : CommandArg) : Yaml :=
  Yaml.map [("name", Yaml.str a.name), ("type", Yaml.str a.type),
    ("required", Yaml.bool a.required), ("description", optStrYaml a.description)]

def commandToYaml (c : TalonCommand) : Yaml :=
  Yaml.map [("name", Yaml.str c.name), ("description", Yaml.str c.description),
    ("args", Yaml.seq (c.args.map commandArgToYaml))]

def optRuntimeYaml : Option TalonRuntime → Yaml
  | none => Yaml.null
  | some r => runtimeToYaml r

def manifestToYaml (m : TalonManifest) : Yaml :=
  Yaml.map [("name", Yaml.str m.name), ("version", Yaml.str m.version),
    ("description", Yaml.str m.description), ("author", optStrYaml m.author),
    ("license", optStrYaml m.license), ("tags", Yaml.seq (m.tags.map Yaml.str)),
    ("repository", optStrYaml m.repository), ("homepage", optStrYaml m.homepage),
    ("runtime", optRuntimeYaml m.runtime),
    ("permissions", Yaml.seq (m.permissions.map Yaml.str)),
    ("environment", Yaml.seq (m.environment.map envVarToYaml)),
    ("commands", Yaml.seq (m.commands.map commandToYaml))]

def yGet : List (String × Yaml) → String → Option Yaml
  | [], _ => none
  | kv :: rest, k => if kv.1 = k then some kv.2 else yGet rest k

def asStr : Yaml → Option String
  | Yaml.str s => some s
  | _ => none

def asBool : Yaml → Option Bool
  | Yaml.bool b => some b
  | _ => none

def reqStr (fs : List (String × Yaml)) (k : String) : Option String :=
  (yGet fs k).bind asStr

def reqBool (fs : List (String × Yaml)) (k : String) : Option Bool :=
  (yGet fs k).bind asBool

def optStr (fs : List (String × Yaml)) (k : String) : Option (Option String) :=
  match yGet fs k with
  | none => some none
  | some Yaml.null => some none
  | some (Yaml.str s) => some (some s)
  | some _ => none

def optMapM (f : α → Option β) : List α → Option (List β)
  | [] => some []
  | x :: xs =>
    match f x with
    | none => none
    | some y => (optMapM f xs).map (fun ys => y :: ys)

/-- Sequence field with a serde default: a missing key yields the empty list. -/
def defSeq (f : Yaml → Option α) (fs : List (String × Yaml)) (k : String) :
    Option (List α) :=
  match yGet fs k with
  | none => some []
  | some (Yaml.seq l) => optMapM f l
  | some _ => none

/-- Sequence field without a default: the key must be present and be a sequence. -/
def reqSeq (f : Yaml → Option α) (fs : List (String × Yaml)) (k : String) :
    Option (List α) :=
  match yGet fs k with
  | some (Yaml.seq l) => optMapM f l
  | _ => none

def runtimeFromFields (fs : List (String × Yaml)) : Option TalonRuntime := do
  let k ← reqStr fs "kind"
  let v ← optStr fs "version"
  pure { kind := k, version := v }

def optRuntimeField (fs : List (String × Yaml)) : Option (Option TalonRuntime) :=
  match yGet fs "runtime" with
  | none => some none
  | some Yaml.null => some none
  | some (Yaml.map rf) => (runtimeFromFields rf).map some
  | some _ => none

def envVarFromYaml : Yaml → Option EnvVar
  | Yaml.map fs => do
    let n ← reqStr fs "name"
    let r ← reqBool fs "required"
    let d ← optStr fs "description"
    let df ← optStr fs "default"
    pure { name := n, required := r, description := d, default := df }
  | _ => none

def commandArgFromYaml : Yaml → Option CommandArg
  | Yaml.map fs => do
    let n ← reqStr fs "name"
    let t ← reqStr fs "type"
    let r ← reqBool fs "required"
    let d ← optStr fs "description"
    pure { name := n, type := t, required := r, description := d }
  | _ => none

def commandFromYaml : Yaml → Option TalonCommand
  | Yaml.map fs => do
    let n ← reqStr fs "name"
    let d ← reqStr fs "description"
    let a ← reqSeq commandArgFromYaml fs "args"
    pure { name := n, description := d, args := a }
  | _ => none

def manifestFromYaml : Yaml → Option TalonManifest
  | Yaml.map fs => do
    let n ← reqStr fs "name"
    let v ← reqStr fs "version"
    let d ← reqStr fs "description"
    let au ← optStr fs "author"
    let li ← optStr fs "license"
    let tg ← defSeq asStr fs "tags"
    let rp ← optStr fs "repository"
    let hp ← optStr fs "homepage"
    let rt ← optRuntimeField fs
    let pm ← defSeq asStr fs "permissions"
    let ev ← defSeq envVarFromYaml fs "environment"
    let cm ← defSeq commandFromYaml fs "commands"
    pure { name := n, version := v, description := d, author := au, license := li,
           tags := tg, repository := rp, homepage := hp, runtime := rt,
           permissions := pm, environment := ev, commands := cm }
  | _ => none

/-! ## Round-trip lemmas for the serde encoding -/

lemma envVar_roundtrip (e : EnvVar) : envVarFromYaml (envVarToYaml e) = some e := by
  cases e with
  | mk n r d df => cases d <;> cases df <;> rfl

lemma commandArg_roundtrip (a : CommandArg) :
    commandArgFromYaml (commandArgToYaml a) = some a := by
  cases a with
  | mk n t r d => cases d <;> rfl

lemma optMapM_map (f : α → Option β) (g : β → α) (h : ∀ x, f (g x) = some x) :
    ∀ l : List β, optMapM f (l.map g) = some l
  | [] => rfl
  | x :: xs => by
    simp [optMapM, h x, optMapM_map f g h xs]

lemma reqStr_of_yGet {fs : List (String × Yaml)} {k s : String}
    (h : yGet fs k = some (Yaml.str s)) : reqStr fs k = some s := by
  simp [reqStr, h, asStr]

lemma optStr_of_yGet {fs : List (String × Yaml)} {k : String} (v : Option String)
    (h : yGet fs k = some (optStrYaml v)) : optStr fs k = some v := by
  cases v <;> simp_all [optStr, optStrYaml]

lemma defSeq_of_yGet {f : Yaml → Option α} {g : α → Yaml} {fs : List (String × Yaml)}
    {k : String} {l : List α} (h : yGet fs k = some (Yaml.seq (l.map g)))
    (hrt : ∀ x, f (g x) = some x) : defSeq f fs k = some l := by
  simp [defSeq, h, optMapM_map f g hrt]

lemma reqSeq_of_yGet {f : Yaml → Option α} {g : α → Yaml} {fs : List (String × Yaml)}
    {k : String} {l : List α} (h : yGet fs k = some (Yaml.seq (l.map g)))
    (hrt : ∀ x, f (g x) = some x) : reqSeq f fs k = some l := by
  simp [reqSeq, h, optMapM_map f g hrt]

lemma optRuntimeField_of_yGet {fs : List (String × Yaml)} (v : Option TalonRuntime)
    (h : yGet fs "runtime" = some (optRuntimeYaml v)) :
    optRuntimeField fs = some v := by
  rcases v with _ | ⟨rk, rv⟩
  case none => simp [optRuntimeField, h, optRuntimeYaml]
  case some =>
    cases rv <;>
      simp [optRuntimeField, h, optRuntimeYaml, runtimeToYaml, runtimeFromFields,
        reqStr, optStr, yGet, asStr, optStrYaml]

lemma commandFromYaml_build {fs : List (String × Yaml)} {n d : String}
    {as : List CommandArg} (h1 : reqStr fs "name" = some n)
    (h2 : reqStr fs "description" = some d)
    (h3 : reqSeq commandArgFromYaml fs "args" = some as) :
    commandFromYaml (Yaml.map fs) = some ⟨n, d, as⟩ := by
  simp [commandFromYaml, h1, h2, h3]

lemma command_roundtrip (c : TalonCommand) :
    commandFromYaml (commandToYaml c) = some c := by
  cases c with
  | mk n d as =>
    exact commandFromYaml_build (reqStr_of_yGet rfl) (reqStr_of_yGet rfl)
      (reqSeq_of_yGet rfl commandArg_roundtrip)

lemma manifestFromYaml_build {fs : List (String × Yaml)} {n v d : String}
    {au li : Option String} {tg : List String} {rp hp : Option String}
    {rt : Option TalonRuntime} {pm : List String} {ev : List EnvVar}
    {cm : List TalonCommand}
    (h1 : reqStr fs "name" = some n) (h2 : reqStr fs "version" = some v)
    (h3 : reqStr fs "description" = some d) (h4 : optStr fs "author" = some au)
    (h5 : optStr fs "license" = some li) (h6 : defSeq asStr fs "tags" = some tg)
    (h7 : optStr fs "repository" = some rp) (h8 : optStr fs "homepage" = some hp)
    (h9 : optRuntimeField fs = some rt)
    (h10 : defSeq asStr fs "permissions" = some pm)
    (h11 : defSeq envVarFromYaml fs "environment" = some ev)
    (h12 : defSeq commandFromYaml fs "commands" = some cm) :
    manifestFromYaml (Yaml.map fs) = some ⟨n, v, d, au, li, tg, rp, hp, rt, pm, ev, cm⟩ := by
  simp [manifestFromYaml, h1, h2, h3, h4, h5, h6, h7, h8, h9, h10, h11, h12]

/-- C1: for every valid manifest content, the manifest obtained by parsing,
when re-serialized with the derived serializer and deserialized again, is
field-for-field equal to the first parse's result.  Stated for every manifest
value, which covers every possible first-parse result. -/
theorem manifest_serde_roundtrip (m : TalonManifest) :
    manifestFromYaml (manifestToYaml m) = some m := by
  cases m with
  | mk n v d au li tg rp hp rt pm ev cm =>
    exact manifestFromYaml_build
      (reqStr_of_yGet rfl) (reqStr_of_yGet rfl) (reqStr_of_yGet rfl)
      (optStr_of_yGet au rfl) (optStr_of_yGet li rfl)
      (defSeq_of_yGet rfl (fun _ => rfl))
      (optStr_of_yGet rp rfl) (optStr_of_yGet hp rfl)
      (optRuntimeField_of_yGet rt rfl)
      (defSeq_of_yGet rfl (fun _ => rfl))
      (defSeq_of_yGet rfl envVar_roundtrip)
      (defSeq_of_yGet rfl command_roundtrip)

/-! ## Frontmatter splitting (TalonManifest::parse, src/lib.rs lines 111-124)

`content.splitn(3, "---")` splits the content at the first two occurrences of
the three-dash pattern, scanning left to right over the characters; the first
part is dropped, the second is trimmed and must be non-empty, and the result
is handed to the YAML deserializer.  Strings are modelled as lists of
characters; `str::trim` as dropping whitespace characters at both ends. -/

def dashes : List Char := ['-', '-', '-']

/-- One step of Rust `splitn`: split at the leftmost occurrence of `pat`. -/
def splitOnce (pat : List Char) : List Char → Option (List Char × List Char)
  | [] => none
  | c :: rest =>
    if pat.isPrefixOf (c :: rest) then some ([], (c :: rest).drop pat.length)
    else
      match splitOnce pat rest with
      | none => none
      | some (a, b) => some (c :: a, b)

/-- Rust `str::splitn(3, pat)`: at most three parts, the last one unsplit. -/
def splitn3 (pat s : List Char) : List (List Char) :=
  match splitOnce pat s with
  | none => [s]
  | some (a, r) =>
    match splitOnce pat r with
    | none => [a, r]
    | some (b, r2) => [a, b, r2]

/-- Rust `str::trim`: whitespace removed from both ends. -/
def trimChars (s : List Char) : List Char :=
  ((s.dropWhile Char.isWhitespace).reverse.dropWhile Char.isWhitespace).reverse

/-- The frontmatter block `TalonManifest::parse` extracts: the second part of
the three-way split, trimmed, if it exists and is non-empty. -/
def frontmatterOf (s : List Char) : Option (List Char) :=
  match (splitn3 dashes s).get? 1 with
  | none => none
  | some fm => if trimChars fm = [] then none else some (trimChars fm)

inductive ParseError where
  | missingFrontmatter : ParseError
  | invalidFrontmatter : ParseError
deriving DecidableEq

/-- `TalonManifest::parse`, with the YAML text reader abstracted: the
frontmatter block is deserialized into the manifest shape, and any failure of
that stage is the invalid-manifest error. -/
def parseManifest (yamlParse : List Char → Option Yaml) (s : List Char) :
    Except ParseError TalonManifest :=
  match frontmatterOf s with
  | none => Except.error ParseError.missingFrontmatter
  | some fm =>
    match yamlParse fm with
    | none => Except.error ParseError.invalidFrontmatter
    | some y =>
      match manifestFromYaml y with
      | none => Except.error ParseError.invalidFrontmatter
      | some m => Except.ok m

/-! A rendering of the claim wording for the splitting rule: splitting on
delimiter LINES, i.e. on lines consisting exactly of the three dashes. -/

/-- The lines of a string, split at newline characters. -/
def splitLines : List Char → List (List Char)
  | [] => [[]]
  | c :: rest =>
    match splitLines rest with
    | [] => [[c]]
    | l :: ls => if c = '\n' then [] :: l :: ls else (c :: l) :: ls

def joinLines (ls : List (List Char)) : List Char :=
  List.intercalate ['\n'] ls

def splitLinesOnce (ls : List (List Char)) :
    Option (List (List Char) × List (List Char)) :=
  match ls with
  | [] => none
  | l :: rest =>
    if l = dashes then some ([], rest)
    else
      match splitLinesOnce rest with
      | none => none
      | some (a, b) => some (l :: a, b)

/-- Modelled from the claim's wording: split the input into at most three
parts at lines that consist exactly of the delimiter. -/
def lineSplitn3 (s : List Char) : List (List Char) :=
  match splitLinesOnce (splitLines s) with
  | none => [s]
  | some (a, r) =>
    match splitLinesOnce r with
    | none => [joinLines a, joinLines r]
    | some (b, r2) => [joinLines a, joinLines b, joinLines r2]

/-- The frontmatter the claim's wording would extract. -/
def lineFrontmatterOf (s : List Char) : Option (List Char) :=
  match (lineSplitn3 s).get? 1 with
  | none => none
  | some fm => if trimChars fm = [] then none else some (trimChars fm)

/-- Index of the leftmost occurrence of `pat`. -/
def findSub (pat : List Char) : List Char → Option Nat
  | [] => none
  | c :: rest =>
    if pat.isPrefixOf (c :: rest) then some 0
    else (findSub pat rest).map (fun i => i + 1)

lemma splitOnce_eq_findSub (pat : List Char) :
    ∀ s : List Char,
      splitOnce pat s =
        (findSub pat s).map (fun i => (s.take i, s.drop (i + pat.length)))
  | [] => by simp [splitOnce, findSub]
  | c :: rest => by
    simp only [splitOnce, findSub]
    cases hp : pat.isPrefixOf (c :: rest)
    · simp only [hp, Bool.false_eq_true, if_false,
        splitOnce_eq_findSub pat rest]
      cases hf : findSub pat rest with
      | none => simp
      | some i =>
        simp [List.take_succ_cons, Nat.add_right_comm i 1 pat.length,
          List.drop_succ_cons]
    · simp [hp]

lemma splitOnce_dashes (s : List Char) :
    splitOnce dashes s =
      (findSub dashes s).map (fun i => (s.take i, s.drop (i + 3))) := by
  rw [splitOnce_eq_findSub]
  rfl

/-- C7 counterexample: the split is not performed on delimiter lines.  On the
input `"ab---cd"` no line consists of the delimiter, yet `parse` extracts the
frontmatter block `"cd"`; splitting on delimiter lines would find no
frontmatter at all. -/
theorem frontmatter_split_not_on_lines :
    frontmatterOf ("ab---cd".toList) = some ("cd".toList) ∧
      lineFrontmatterOf ("ab---cd".toList) = none := by
  constructor <;> rfl

/-- C7 (amended): `parse` splits the input into at most three parts at the
first two occurrences of the three-dash delimiter substring — which need not
stand on a line of its own — discards the part before the first occurrence,
and treats the (trimmed, non-empty) second part as the frontmatter block. -/
theorem splitn3_at_dash_occurrences (s : List Char) :
    splitn3 dashes s =
      (match findSub dashes s with
       | none => [s]
       | some i =>
         match findSub dashes (s.drop (i + 3)) with
         | none => [s.take i, s.drop (i + 3)]
         | some j =>
           [s.take i, (s.drop (i + 3)).take j, (s.drop (i + 3)).drop (j + 3)]) ∧
    frontmatterOf s =
      (match findSub dashes s with
       | none => none
       | some i =>
         match findSub dashes (s.drop (i + 3)) with
         | none =>
           if trimChars (s.drop (i + 3)) = [] then none
           else some (trimChars (s.drop (i + 3)))
         | some j =>
           if trimChars ((s.drop (i + 3)).take j) = [] then none
           else some (trimChars ((s.drop (i + 3)).take j))) := by
  constructor
  · rw [splitn3, splitOnce_dashes]
    rcases findSub dashes s with _ | i
    · simp
    · simp only [Option.map_some']
      rw [splitOnce_dashes]
      rcases findSub dashes (s.drop (i + 3)) with _ | j <;> simp
  · rw [frontmatterOf, splitn3, splitOnce_dashes]
    rcases findSub dashes s with _ | i
    · simp
    · simp only [Option.map_some']
      rw [splitOnce_dashes]
      rcases findSub dashes (s.drop (i + 3)) with _ | j <;> simp

/-- C8: `parse` fails with the missing-frontmatter error exactly when the
three-way split has no second part or the second part trims to nothing; in
particular the content `"no frontmatter here"` fails that way. -/
theorem parse_missing_frontmatter_iff :
    (∀ (yp : List Char → Option Yaml) (s : List Char),
      parseManifest yp s = Except.error ParseError.missingFrontmatter ↔
        ((splitn3 dashes s).get? 1 = none ∨
          trimChars (((splitn3 dashes s).get? 1).getD []) = [])) ∧
    ∀ yp : List Char → Option Yaml,
      parseManifest yp ("no frontmatter here".toList) =
        Except.error ParseError.missingFrontmatter := by
  constructor
  · intro yp s
    rw [parseManifest, frontmatterOf]
    rcases h2 : (splitn3 dashes s).get? 1 with _ | fm
    · simp
    · by_cases ht : trimChars fm = []
      · simp [ht]
      · simp only [ht, if_false, Option.getD_some]
        rcases hyp : yp (trimChars fm) with _ | y
        · simp [ht]
        · rcases hm : manifestFromYaml y with _ | m <;> simp [hm]
  · intro yp
    rfl

/-! ## Index entries, listing and search (src/registry.rs lines 136-157)

A `TalonEntry` is the denormalized summary held in the index; `search_talons`
filters the index values by a case-insensitive substring match on name,
description or any tag; `list_talons` returns all values.  The index values
enumerate in an unspecified order, modelled by a list. -/

abbrev FsPath := List String

structure TalonEntry where
  name : String
  version : String
  description : String
  author : Option String
  license : Option String
  path : FsPath
  tags : List String
deriving DecidableEq

/-- Rust `str::contains`: the pattern occurs as a contiguous substring. -/
def containsSub (pat : List Char) : List Char → Bool
  | [] => pat.isEmpty
  | c :: rest => pat.isPrefixOf (c :: rest) || containsSub pat rest

/-- Rust `str::to_lowercase`, over the character list. -/
def lowerChars (s : List Char) : List Char :=
  s.map Char.toLower

/-- The filter predicate of `search_talons`, applied to the lowercased query. -/
def matchesQuery (queryLower : List Char) (t : TalonEntry) : Bool :=
  containsSub queryLower (lowerChars t.name.toList) ||
    containsSub queryLower (lowerChars t.description.toList) ||
    t.tags.any (fun tag => containsSub queryLower (lowerChars tag.toList))

def searchTalons (entries : List TalonEntry) (query : String) : List TalonEntry :=
  entries.filter (matchesQuery (lowerChars query.toList))

def listTalons (entries : List TalonEntry) : List TalonEntry :=
  entries

/-- The query is a case-insensitive substring of `s`. -/
def ciSubstr (q s : String) : Prop :=
  containsSub (lowerChars q.toList) (lowerChars s.toList) = true

instance (q s : String) : Decidable (ciSubstr q s) := by
  unfold ciSubstr
  infer_instance

def alphaEntry : TalonEntry :=
  { name := "alpha", version := "1.0", description := "", author := none,
    license := none, path := [], tags := ["web"] }

def betaEntry : TalonEntry :=
  { name := "beta", version := "1.0", description := "alpha-compatible",
    author := none, license := none, path := [], tags := [] }

/-- C6: `search` returns exactly the entries whose name, description or some
tag contains the query case-insensitively; with no match it returns the empty
list rather than an error.  On the two spec-example entries, searching for
the string alpha returns both and searching for zzz returns nothing. -/
theorem search_talons_spec :
    (∀ (entries : List TalonEntry) (q : String) (e : TalonEntry),
      e ∈ searchTalons entries q ↔
        e ∈ entries ∧
          (ciSubstr q e.name ∨ ciSubstr q e.description ∨
            ∃ tag ∈ e.tags, ciSubstr q tag)) ∧
    searchTalons [alphaEntry, betaEntry] "alpha" = [alphaEntry, betaEntry] ∧
    searchTalons [alphaEntry, betaEntry] "zzz" = [] := by
  refine ⟨?_, by decide, by decide⟩
  intro entries q e
  rw [searchTalons, List.mem_filter]
  simp [matchesQuery, ciSubstr, or_assoc]

lemma containsSub_nil : ∀ s : List Char, containsSub [] s = true
  | [] => rfl
  | _ :: _ => rfl

/-- C10: searching with the empty query returns every entry, equal to the
result of `list`, because the empty string is a substring of every name. -/
theorem search_empty_query_eq_list (entries : List TalonEntry) :
    searchTalons entries "" = listTalons entries := by
  rw [searchTalons, listTalons]
  refine List.filter_eq_self.mpr (fun e _ => ?_)
  show matchesQuery [] e = true
  simp [matchesQuery, containsSub_nil]

/-! ## Capability flattening (TalonLoader::get_capabilities, src/loader.rs)

`get_capabilities(name)` loads the manifest of the installed package `name`
and flattens each declared command into a `TalonCapability`; the argument
records it builds carry name, type and required flag — `CapabilityArg` in
src/loader.rs lines 114-119 has no description field. -/

structure CapabilityArg where
  name : String
  type : String
  required : Bool
deriving DecidableEq

structure TalonCapability where
  name : String
  description : String
  args : List CapabilityArg
deriving DecidableEq

/-- The flattening `get_capabilities` performs on the loaded manifest of the
installed package `name`. -/
def getCapabilities (name : String) (m : TalonManifest) : List TalonCapability :=
  m.commands.map (fun cmd =>
    { name := name ++ "." ++ cmd.name, description := cmd.description,
      args := cmd.args.map (fun a =>
        { name := a.name, type := a.type, required := a.required }) })

/-- A build command with a single required string argument whose free-form
description is the given one. -/
def buildCommand (argDescr : Option String) : TalonCommand :=
  { name := "build", description := "build it",
    args := [{ name := "target", type := "string", required := true,
               description := argDescr }] }

/-- A manifest declaring exactly the one command above. -/
def buildManifest (argDescr : Option String) : TalonManifest :=
  { name := "pkg", version := "1.0.0", description := "demo", author := none,
    license := none, tags := [], repository := none, homepage := none,
    runtime := none, permissions := [], environment := [],
    commands := [buildCommand argDescr] }

/-- C2 counterexample: the argument's free-form description is not preserved
in the capability record.  Two manifests that differ only in an argument
description flatten to identical capability lists, so the description cannot
be carried by the result. -/
theorem capabilities_drop_arg_description :
    getCapabilities "pkg" (buildManifest (some "the build target")) =
      getCapabilities "pkg" (buildManifest none) ∧
    buildManifest (some "the build target") ≠ buildManifest none := by
  exact ⟨rfl, by decide⟩

/-- C2 (amended): `capabilities(name)` yields one record per declared
command, in declaration order, named by the dotted concatenation of package
and command name, carrying the command's description and one argument record
per argument with the argument's name, declared type tag and required flag —
the argument's free-form description is dropped.  The spec's example manifest
yields exactly one capability named pkg.build with the expected argument. -/
theorem get_capabilities_flattening :
    (∀ (name : String) (m : TalonManifest) (i : Nat),
      (getCapabilities name m).get? i =
        (m.commands.get? i).map (fun cmd =>
          { name := name ++ "." ++ cmd.name, description := cmd.description,
            args := cmd.args.map (fun a =>
              { name := a.name, type := a.type, required := a.required }) })) ∧
    getCapabilities "pkg" (buildManifest none) =
      [{ name := "pkg.build", description := "build it",
         args := [{ name := "target", type := "string", required := true }] }] := by
  constructor
  · intro name m i
    simp [getCapabilities]
  · rfl

/-! ## The index map and discovery (src/registry.rs lines 94-134)

The index is the `HashMap<String, TalonEntry>` of the registry, modelled as a
function from names to optional entries (`insert` overwrites the binding of
one key and leaves the rest).  The discovery walk is modelled by the list of
walk items the traversal yields: the directory holding a TALON.md file,
paired with the parse result of that file's content — `None` for a file that
fails to read or parse, which discover skips rather than failing. -/

abbrev Index := String → Option TalonEntry

def insertIdx (idx : Index) (k : String) (v : TalonEntry) : Index :=
  fun k2 => if k2 = k then some v else idx k2

def eraseIdx (idx : Index) (k : String) : Index :=
  fun k2 => if k2 = k then none else idx k2

structure TalonInfo where
  manifest : TalonManifest
  path : FsPath
  installed : Bool
deriving DecidableEq

/-- The index entry derived from a manifest found at `p` (denormalized copy of
the manifest summary fields). -/
def entryOfManifest (p : FsPath) (m : TalonManifest) : TalonEntry :=
  { name := m.name, version := m.version, description := m.description,
    author := m.author, license := m.license, path := p, tags := m.tags }

/-- `discover_talons`: upsert an entry per successfully parsed package, in
walk order, and collect the parsed packages with `installed = true`. -/
def discoverTalons (walk : List (FsPath × Option TalonManifest)) (idx : Index) :
    Index × List TalonInfo :=
  walk.foldl
    (fun acc item =>
      match item.2 with
      | none => acc
      | some m =>
        (insertIdx acc.1 m.name (entryOfManifest item.1 m),
         acc.2 ++ [{ manifest := m, path := item.1, installed := true }]))
    (idx, [])

def discPairs (walk : List (FsPath × Option TalonManifest)) :
    List (String × TalonEntry) :=
  walk.filterMap (fun it => it.2.map (fun m => (m.name, entryOfManifest it.1 m)))

def discList (walk : List (FsPath × Option TalonManifest)) : List TalonInfo :=
  walk.filterMap (fun it =>
    it.2.map (fun m => { manifest := m, path := it.1, installed := true }))

def foldIns (idx : Index) (ps : List (String × TalonEntry)) : Index :=
  ps.foldl (fun i p => insertIdx i p.1 p.2) idx

lemma discover_aux (walk : List (FsPath × Option TalonManifest)) :
    ∀ (idx : Index) (acc : List TalonInfo),
      walk.foldl
        (fun acc2 item =>
          match item.2 with
          | none => acc2
          | some m =>
            (insertIdx acc2.1 m.name (entryOfManifest item.1 m),
             acc2.2 ++ [{ manifest := m, path := item.1, installed := true }]))
        (idx, acc) =
      (foldIns idx (discPairs walk), acc ++ discList walk) := by
  induction walk with
  | nil => intro idx acc; simp [discPairs, discList, foldIns]
  | cons it rest ih =>
    intro idx acc
    rcases it with ⟨p, mo⟩
    rcases mo with _ | m
    · simpa [discPairs, discList] using ih idx acc
    · simp only [List.foldl_cons, discPairs, discList, List.filterMap_cons,
        Option.map_some']
      rw [ih]
      simp [discPairs, discList, foldIns]

lemma discover_eq (walk : List (FsPath × Option TalonManifest)) (idx : Index) :
    discoverTalons walk idx = (foldIns idx (discPairs walk), discList walk) := by
  rw [discoverTalons, discover_aux]
  simp

/-- The last binding of `k` in an association list (later inserts win). -/
def lastVal (ps : List (String × TalonEntry)) (k : String) : Option TalonEntry :=
  match ps with
  | [] => none
  | p :: rest =>
    match lastVal rest k with
    | some v => some v
    | none => if k = p.1 then some p.2 else none

lemma foldIns_apply (ps : List (String × TalonEntry)) :
    ∀ (idx : Index) (k : String),
      foldIns idx ps k =
        match lastVal ps k with
        | some v => some v
        | none => idx k := by
  induction ps with
  | nil => intro idx k; rfl
  | cons p rest ih =>
    intro idx k
    rw [foldIns, List.foldl_cons]
    rw [show List.foldl (fun i q => insertIdx i q.1 q.2) (insertIdx idx p.1 p.2) rest =
      foldIns (insertIdx idx p.1 p.2) rest from rfl]
    rw [ih, lastVal]
    rcases lastVal rest k with _ | v
    · by_cases h : k = p.1 <;> simp [insertIdx, h]
    · simp

lemma foldIns_idem (idx : Index) (ps : List (String × TalonEntry)) (k : String) :
    foldIns (foldIns idx ps) ps k = foldIns idx ps k := by
  rw [foldIns_apply, foldIns_apply]
  rcases lastVal ps k with _ | v <;> rfl

/-- C5: running discover a second time over the same walk (no filesystem
change between the calls) leaves every index entry exactly as the first run
left it, and returns the same discovered list (hence set-equal). -/
theorem discover_idempotent (walk : List (FsPath × Option TalonManifest))
    (idx : Index) :
    (∀ k, (discoverTalons walk (discoverTalons walk idx).1).1 k =
      (discoverTalons walk idx).1 k) ∧
    (discoverTalons walk (discoverTalons walk idx).1).2 =
      (discoverTalons walk idx).2 := by
  constructor
  · intro k
    simp only [discover_eq]
    exact foldIns_idem idx (discPairs walk) k
  · simp only [discover_eq]

/-! ## Registry state, add and remove (src/registry.rs lines 159-201)

The filesystem is a finite map from paths (component lists) to file contents;
a directory exists when some file lies at or under its path.  File contents
are a type parameter `C` and manifest parsing a function `C → Option
TalonManifest`, so concrete instances can evaluate.  The persisted index
(`index.json`, written whole by `save_index`) is modelled as a shadow copy of
the index map.  An `FsOracle` says which fallible filesystem steps succeed,
modelling I/O failures: directory deletion (`rmOk`), directory creation plus
recursive copy (`copyOk`) and index persistence (`saveOk`); on a failed step
the operation aborts with an I/O error exactly where the `?` operator in the
source propagates it. -/

variable {C : Type}

abbrev Fs (C : Type) := List (FsPath × C)

def fsGet : Fs C → FsPath → Option C
  | [], _ => none
  | e :: rest, p => if e.1 = p then some e.2 else fsGet rest p

/-- Boolean path-prefix test (a directory contains the paths it prefixes). -/
def isPfx : FsPath → FsPath → Bool
  | [], _ => true
  | _ :: _, [] => false
  | a :: as, b :: bs => if a = b then isPfx as bs else false

/-- `Path::exists` for a directory: some file lies at or under it. -/
def existsDir (fs : Fs C) (dir : FsPath) : Bool :=
  fs.any (fun e => isPfx dir e.1)

/-- `fs::remove_dir_all`: drop every file at or under the directory (the
filter over the file map, written recursively). -/
def removeDirAll : Fs C → FsPath → Fs C
  | [], _ => []
  | e :: rest, dir =>
    if isPfx dir e.1 = true then removeDirAll rest dir
    else e :: removeDirAll rest dir

/-- `copy_dir_recursive`: one copy, placed under `dst`, of every file strictly
under `src` (the source root itself is skipped), preserving relative paths. -/
def copyFiles (src dst : FsPath) : Fs C → Fs C
  | [] => []
  | e :: rest =>
    if isPfx src e.1 = true ∧ e.1 ≠ src then
      (dst ++ e.1.drop src.length, e.2) :: copyFiles src dst rest
    else copyFiles src dst rest

/-- The filesystem after copying `src` into `dst`: copied files shadow what
is looked up under `dst`, everything else is unchanged. -/
def copyDir (fs : Fs C) (src dst : FsPath) : Fs C :=
  copyFiles src dst fs ++ fs

/-- `remove_dir_all` guarded by the existence check `add_talon` performs. -/
def rmIfExists (fs : Fs C) (dir : FsPath) : Fs C :=
  if existsDir fs dir = true then removeDirAll fs dir else fs

structure RegState (C : Type) where
  fs : Fs C
  talonsDir : FsPath
  index : Index
  persisted : Index

inductive RegError where
  | manifestNotFound : RegError
  | parseFailed : RegError
  | ioFailure : RegError
deriving DecidableEq

structure FsOracle where
  rmOk : Bool
  copyOk : Bool
  saveOk : Bool

def okOracle : FsOracle :=
  { rmOk := true, copyOk := true, saveOk := true }

/-- `TalonRegistry::add_talon`: require and parse `src/TALON.md`, delete any
existing destination directory named after the manifest, copy the source tree
over, insert the index entry in memory, persist.  Failure points follow the
source order; the in-memory insert happens before the save. -/
def addTalon (parseC : C → Option TalonManifest) (orc : FsOracle)
    (st : RegState C) (src : FsPath) : RegState C × Except RegError String :=
  match fsGet st.fs (src ++ ["TALON.md"]) with
  | none => (st, Except.error RegError.manifestNotFound)
  | some content =>
    match parseC content with
    | none => (st, Except.error RegError.parseFailed)
    | some m =>
      if existsDir st.fs (st.talonsDir ++ [m.name]) = true ∧ orc.rmOk = false then
        (st, Except.error RegError.ioFailure)
      else if orc.copyOk = false then
        ({ st with fs := rmIfExists st.fs (st.talonsDir ++ [m.name]) },
         Except.error RegError.ioFailure)
      else if orc.saveOk = false then
        ({ st with
            fs := copyDir (rmIfExists st.fs (st.talonsDir ++ [m.name])) src
              (st.talonsDir ++ [m.name]),
            index := insertIdx st.index m.name
              (entryOfManifest (st.talonsDir ++ [m.name]) m) },
         Except.error RegError.ioFailure)
      else
        ({ st with
            fs := copyDir (rmIfExists st.fs (st.talonsDir ++ [m.name])) src
              (st.talonsDir ++ [m.name]),
            index := insertIdx st.index m.name
              (entryOfManifest (st.talonsDir ++ [m.name]) m),
            persisted := insertIdx st.index m.name
              (entryOfManifest (st.talonsDir ++ [m.name]) m) },
         Except.ok m.name)

/-- `TalonRegistry::remove_talon`: a missing entry is a successful no-op; an
existing entry is removed from the in-memory map first, then its backing
directory is deleted when present, then the index is persisted. -/
def removeTalon (orc : FsOracle) (st : RegState C) (name : String) :
    RegState C × Option RegError :=
  match st.index name with
  | none => (st, none)
  | some entry =>
    if existsDir st.fs entry.path = true then
      if orc.rmOk = true then
        if orc.saveOk = true then
          ({ st with
              fs := removeDirAll st.fs entry.path,
              index := eraseIdx st.index name,
              persisted := eraseIdx st.index name }, none)
        else
          ({ st with
              fs := removeDirAll st.fs entry.path,
              index := eraseIdx st.index name }, some RegError.ioFailure)
      else ({ st with index := eraseIdx st.index name }, some RegError.ioFailure)
    else
      if orc.saveOk = true then
        ({ st with
            index := eraseIdx st.index name,
            persisted := eraseIdx st.index name }, none)
      else ({ st with index := eraseIdx st.index name }, some RegError.ioFailure)

/-- C9: removing a package whose stored backing directory no longer exists on
disk succeeds without an I/O failure: the deletion is skipped (the filesystem
is untouched), the entry is removed from the index and the updated index is
persisted. -/
theorem remove_missing_dir_succeeds (orc : FsOracle) (st : RegState C)
    (name : String) (entry : TalonEntry)
    (hidx : st.index name = some entry)
    (hdir : existsDir st.fs entry.path = false)
    (hsave : orc.saveOk = true) :
    (removeTalon orc st name).2 = none ∧
    (removeTalon orc st name).1.index name = none ∧
    (removeTalon orc st name).1.fs = st.fs ∧
    (∀ k, (removeTalon orc st name).1.persisted k =
      (removeTalon orc st name).1.index k) := by
  simp [removeTalon, hidx, hdir, hsave, eraseIdx]

def entry9 : TalonEntry :=
  { name := "pkg", version := "1.0", description := "", author := none,
    license := none, path := ["reg", "pkg"], tags := [] }

def state9 : RegState Unit :=
  { fs := [], talonsDir := ["reg"],
    index := fun k => if k = "pkg" then some entry9 else none,
    persisted := fun k => if k = "pkg" then some entry9 else none }

theorem remove_missing_dir_succeeds_witness :
    (removeTalon okOracle state9 "pkg").2 = none ∧
    (removeTalon okOracle state9 "pkg").1.index "pkg" = none ∧
    (removeTalon okOracle state9 "pkg").1.fs = state9.fs ∧
    (removeTalon okOracle state9 "pkg").1.persisted "pkg" =
      (removeTalon okOracle state9 "pkg").1.index "pkg" :=
  have h := remove_missing_dir_succeeds okOracle state9 "pkg" entry9 rfl rfl rfl
  ⟨h.1, h.2.1, h.2.2.1, h.2.2.2 "pkg"⟩

def entry3 : TalonEntry :=
  { name := "alpha", version := "1", description := "", author := none,
    license := none, path := ["reg", "alpha"], tags := [] }

def index3 : Index :=
  fun k => if k = "alpha" then some entry3 else none

def state3 : RegState Unit :=
  { fs := [(["reg", "alpha", "TALON.md"], ())], talonsDir := ["reg"],
    index := index3, persisted := index3 }

def failRmOracle : FsOracle :=
  { rmOk := false, copyOk := true, saveOk := true }

/-- C3 counterexample: an ordinary operation failure — directory deletion
failing during remove, no crash involved — leaves the in-memory index
diverged from the persisted one: the entry is already gone from memory but
still present in the last persisted state. -/
theorem remove_failure_divergence :
    (removeTalon failRmOracle state3 "alpha").2 = some RegError.ioFailure ∧
    (removeTalon failRmOracle state3 "alpha").1.index "alpha" = none ∧
    (removeTalon failRmOracle state3 "alpha").1.persisted "alpha" = some entry3 := by
  refine ⟨rfl, rfl, rfl⟩

/-- C3 (amended): on any ordinary failure of add or remove, the PERSISTED
index is left at its last successfully persisted state — every failing branch
returns it untouched.  The in-memory index, however, can diverge from it on
an ordinary failure, not only on a crash: remove erases the entry in memory
before attempting the directory deletion and the save, and add inserts the
entry in memory before the save, so a failure in those later steps leaves
memory ahead of disk (witness the companion counterexample). -/
theorem mutating_ops_persisted_stable (parseC : C → Option TalonManifest)
    (orc : FsOracle) (st : RegState C) (name : String) (src : FsPath) :
    ((removeTalon orc st name).1.persisted = st.persisted ∨
      (removeTalon orc st name).2 = none) ∧
    ((addTalon parseC orc st src).1.persisted = st.persisted ∨
      ∃ n, (addTalon parseC orc st src).2 = Except.ok n) := by
  constructor
  · rw [removeTalon]
    split
    · exact Or.inr rfl
    · split
      · split
        · split
          · exact Or.inr rfl
          · exact Or.inl rfl
        · exact Or.inl rfl
      · split
        · exact Or.inr rfl
        · exact Or.inl rfl
  · rw [addTalon]
    split
    · exact Or.inl rfl
    · split
      · exact Or.inl rfl
      · split
        · exact Or.inl rfl
        · split
          · exact Or.inl rfl
          · split
            · exact Or.inl rfl
            · exact Or.inr ⟨_, rfl⟩

theorem mutating_ops_persisted_stable_witness :
    ((removeTalon failRmOracle state3 "alpha").1.persisted = state3.persisted ∨
      (removeTalon failRmOracle state3 "alpha").2 = none) ∧
    ((addTalon (fun _ => (none : Option TalonManifest)) failRmOracle state3
        ["src"]).1.persisted = state3.persisted ∨
      ∃ n, (addTalon (fun _ => (none : Option TalonManifest)) failRmOracle state3
        ["src"]).2 = Except.ok n) :=
  mutating_ops_persisted_stable (fun _ => none) failRmOracle state3 "alpha" ["src"]

/-! ## Path and file-map lemmas for the add/add overwrite property -/

lemma pfx_app (a t : FsPath) : isPfx a (a ++ t) = true := by
  induction a with
  | nil => rfl
  | cons x xs ih => simp [isPfx, ih]

lemma isPfx_iff (a : FsPath) : ∀ b : FsPath, isPfx a b = true ↔ ∃ t, b = a ++ t := by
  induction a with
  | nil =>
    intro b
    simp [isPfx]
  | cons x xs ih =>
    intro b
    cases b with
    | nil => simp [isPfx]
    | cons y ys =>
      by_cases h : x = y
      · subst h
        simp [isPfx, ih ys]
      · simp only [isPfx, if_neg h]
        constructor
        · intro hf
          exact Bool.noConfusion hf
        · rintro ⟨t, ht⟩
          injection ht with hy hys
          exact absurd hy.symm h

lemma pfx_trich : ∀ (a b c : FsPath), isPfx a c = true → isPfx b c = true →
    isPfx a b = true ∨ isPfx b a = true
  | [], _, _, _, _ => Or.inl rfl
  | _ :: _, [], _, _, _ => Or.inr rfl
  | _ :: _, _ :: _, [], h1, _ => by simp [isPfx] at h1
  | x :: xs, y :: ys, z :: zs, h1, h2 => by
    simp only [isPfx] at h1 h2
    by_cases hx : x = z
    · by_cases hy : y = z
      · subst hx
        subst hy
        rw [if_pos rfl] at h1 h2
        rcases pfx_trich xs ys zs h1 h2 with h | h
        · exact Or.inl (by simp [isPfx, h])
        · exact Or.inr (by simp [isPfx, h])
      · rw [if_neg hy] at h2
        exact Bool.noConfusion h2
    · rw [if_neg hx] at h1
      exact Bool.noConfusion h1

lemma pfx_not_app (d s x : FsPath) (h1 : isPfx d s = false)
    (h2 : isPfx s d = false) : isPfx d (s ++ x) = false := by
  cases hb : isPfx d (s ++ x) with
  | false => rfl
  | true =>
    rcases pfx_trich d s (s ++ x) hb (pfx_app s x) with hc | hc
    · rw [h1] at hc
      exact Bool.noConfusion hc
    · rw [h2] at hc
      exact Bool.noConfusion hc

lemma fsGet_append : ∀ (l1 l2 : Fs C) (p : FsPath),
    fsGet (l1 ++ l2) p =
      match fsGet l1 p with
      | some c => some c
      | none => fsGet l2 p
  | [], _, _ => rfl
  | e :: rest, l2, p => by
    by_cases h : e.1 = p <;> simp [fsGet, h, fsGet_append rest l2 p]

lemma fsGet_removeDirAll : ∀ (fs : Fs C) (d p : FsPath),
    fsGet (removeDirAll fs d) p =
      if isPfx d p = true then none else fsGet fs p
  | [], d, p => by simp [removeDirAll, fsGet]
  | e :: rest, d, p => by
    rw [removeDirAll]
    by_cases hd : isPfx d e.1 = true
    · rw [if_pos hd, fsGet_removeDirAll rest d p]
      by_cases hp : isPfx d p = true
      · simp [hp]
      · have hne : e.1 ≠ p := fun he => hp (he ▸ hd)
        simp [hp, fsGet, hne]
    · rw [if_neg hd]
      by_cases he : e.1 = p
      · have hdp : isPfx d p = false := by
          rw [← he]
          cases hb : isPfx d e.1
          · rfl
          · exact absurd hb hd
        simp [fsGet, he, hdp]
      · simp [fsGet, he, fsGet_removeDirAll rest d p]

lemma fsGet_copyFiles : ∀ (fs : Fs C) (s d rel : FsPath), rel ≠ [] →
    fsGet (copyFiles s d fs) (d ++ rel) = fsGet fs (s ++ rel)
  | [], _, _, _, _ => rfl
  | e :: rest, s, d, rel, hrel => by
    rw [copyFiles]
    by_cases hc : isPfx s e.1 = true ∧ e.1 ≠ s
    · rw [if_pos hc]
      rcases (isPfx_iff s e.1).mp hc.1 with ⟨t, ht⟩
      have hdrop : e.1.drop s.length = t := by
        rw [ht]
        exact List.drop_left s t
      by_cases he : e.1 = s ++ rel
      · have htr : t = rel := List.append_cancel_left (ht ▸ he)
        have : d ++ e.1.drop s.length = d ++ rel := by rw [hdrop, htr]
        simp [fsGet, this, he]
      · have : d ++ e.1.drop s.length ≠ d ++ rel := by
          rw [hdrop]
          intro hd2
          exact he (by rw [ht, List.append_cancel_left hd2])
        simp [fsGet, this, he, fsGet_copyFiles rest s d rel hrel]
    · rw [if_neg hc]
      have hne : e.1 ≠ s ++ rel := by
        intro he
        apply hc
        refine ⟨by rw [he]; exact pfx_app s rel, ?_⟩
        rw [he]
        intro h2
        apply hrel
        have h3 : s ++ rel = s ++ [] := by rw [h2, List.append_nil]
        exact List.append_cancel_left h3
      rw [fsGet_copyFiles rest s d rel hrel, fsGet, if_neg hne]

lemma fsGet_some_existsDir : ∀ (fs : Fs C) (p dir : FsPath) (c : C),
    fsGet fs p = some c → isPfx dir p = true → existsDir fs dir = true
  | [], _, _, _, h, _ => Option.noConfusion h
  | e :: rest, p, dir, c, h, hp => by
    rw [fsGet] at h
    by_cases he : e.1 = p
    · have : isPfx dir e.1 = true := by rw [he]; exact hp
      simp [existsDir, this]
    · rw [if_neg he] at h
      have := fsGet_some_existsDir rest p dir c h hp
      simp only [existsDir] at this ⊢
      simp [List.any_cons, this]

lemma fsGet_none_of_not_existsDir (fs : Fs C) (d p : FsPath)
    (hex : existsDir fs d = false) (hp : isPfx d p = true) :
    fsGet fs p = none := by
  rcases hq : fsGet fs p with _ | c
  · rfl
  · rw [fsGet_some_existsDir fs p d c hq hp] at hex
    exact Bool.noConfusion hex

lemma fsGet_rmIfExists_under (fs : Fs C) (d p : FsPath) (hp : isPfx d p = true) :
    fsGet (rmIfExists fs d) p = none := by
  rw [rmIfExists]
  by_cases hex : existsDir fs d = true
  · rw [if_pos hex, fsGet_removeDirAll]
    simp [hp]
  · rw [if_neg hex]
    have hex2 : existsDir fs d = false := by
      cases hb : existsDir fs d
      · rfl
      · exact absurd hb hex
    exact fsGet_none_of_not_existsDir fs d p hex2 hp

lemma fsGet_rmIfExists_out (fs : Fs C) (d q : FsPath) (h : isPfx d q = false) :
    fsGet (rmIfExists fs d) q = fsGet fs q := by
  rw [rmIfExists]
  by_cases hex : existsDir fs d = true
  · rw [if_pos hex, fsGet_removeDirAll]
    simp [h]
  · rw [if_neg hex]

lemma fsGet_copyDir_under (fs : Fs C) (s d rel : FsPath) (hrel : rel ≠ [])
    (hnone : fsGet fs (d ++ rel) = none) :
    fsGet (copyDir fs s d) (d ++ rel) = fsGet fs (s ++ rel) := by
  rw [copyDir, fsGet_append, fsGet_copyFiles fs s d rel hrel]
  rcases fsGet fs (s ++ rel) with _ | c
  · exact hnone
  · rfl

/-- C4: adding the same source twice (its manifest parsing to name `N` at
each call, the source tree disjoint from the destination) leaves exactly one
index entry keyed `N` — the function-map index holds at most one binding per
key, and that binding is the entry of the second call's manifest; the entry's
path is the deterministic destination, the bound directory joined with `N`,
identical across both calls; and because any directory already at the
destination is deleted in full before the copy, the destination afterwards
holds exactly the files of the second copy, with no residue from the first. -/
theorem add_twice_single_entry (parseC : C → Option TalonManifest)
    (st0 st1 st2 : RegState C) (r1 r2 : Except RegError String) (src : FsPath)
    (c1 c2 : C) (m1 m2 : TalonManifest) (N : String)
    (hN1 : m1.name = N) (hN2 : m2.name = N)
    (h1get : fsGet st0.fs (src ++ ["TALON.md"]) = some c1)
    (h1p : parseC c1 = some m1)
    (h2get : fsGet st1.fs (src ++ ["TALON.md"]) = some c2)
    (h2p : parseC c2 = some m2)
    (hd1 : isPfx src (st0.talonsDir ++ [N]) = false)
    (hd2 : isPfx (st0.talonsDir ++ [N]) src = false)
    (e1 : addTalon parseC okOracle st0 src = (st1, r1))
    (e2 : addTalon parseC okOracle st1 src = (st2, r2)) :
    r2 = Except.ok N ∧
    st2.index N = some (entryOfManifest (st0.talonsDir ++ [N]) m2) ∧
    st1.index N = some (entryOfManifest (st0.talonsDir ++ [N]) m1) ∧
    (∀ p, isPfx (st0.talonsDir ++ [N]) p = true → p ≠ st0.talonsDir ++ [N] →
      fsGet st2.fs p = fsGet st1.fs (src ++ p.drop (st0.talonsDir ++ [N]).length)) := by
  simp only [addTalon, h1get, h1p, okOracle, hN1, Bool.true_eq_false, and_false,
    if_false, if_neg, Bool.false_eq_true, Prod.mk.injEq] at e1
  obtain ⟨he1, hr1⟩ := e1
  subst he1
  simp only [addTalon, h2get, h2p, okOracle, hN2, Bool.true_eq_false, and_false,
    if_false, if_neg, Bool.false_eq_true, Prod.mk.injEq] at e2
  obtain ⟨he2, hr2⟩ := e2
  subst he2
  refine ⟨hr2.symm, ?_, ?_, ?_⟩
  · simp [insertIdx]
  · simp [insertIdx]
  · intro p hp hne
    rcases (isPfx_iff (st0.talonsDir ++ [N]) p).mp hp with ⟨rel, rfl⟩
    have hrel : rel ≠ [] := by
      intro h
      exact hne (by rw [h, List.append_nil])
    rw [List.drop_left]
    dsimp only
    rw [fsGet_copyDir_under _ src _ rel hrel
      (fsGet_rmIfExists_under _ _ _ (pfx_app _ rel))]
    exact fsGet_rmIfExists_out _ _ _ (pfx_not_app _ src rel hd2 hd1)

/-- A concrete manifest named n with no optional content. -/
def manifestW : TalonManifest :=
  { name := "n", version := "1", description := "d", author := none,
    license := none, tags := [], repository := none, homepage := none,
    runtime := none, permissions := [], environment := [], commands := [] }

/-- A registry bound to reg with one source package at s; file contents are
already-parsed manifests, so parsing is the identity. -/
def stateW : RegState (Option TalonManifest) :=
  { fs := [(["s", "TALON.md"], some manifestW)], talonsDir := ["reg"],
    index := fun _ => none, persisted := fun _ => none }

theorem add_twice_single_entry_witness :
    (addTalon (fun c => c) okOracle
        (addTalon (fun c => c) okOracle stateW ["s"]).1 ["s"]).2 = Except.ok "n" ∧
    (addTalon (fun c => c) okOracle
        (addTalon (fun c => c) okOracle stateW ["s"]).1 ["s"]).1.index "n" =
      some (entryOfManifest (stateW.talonsDir ++ ["n"]) manifestW) ∧
    (addTalon (fun c => c) okOracle stateW ["s"]).1.index "n" =
      some (entryOfManifest (stateW.talonsDir ++ ["n"]) manifestW) ∧
    fsGet (addTalon (fun c => c) okOracle
        (addTalon (fun c => c) okOracle stateW ["s"]).1 ["s"]).1.fs
      ["reg", "n", "TALON.md"] =
    fsGet (addTalon (fun c => c) okOracle stateW ["s"]).1.fs
      (["s"] ++ List.drop (stateW.talonsDir ++ ["n"]).length ["reg", "n", "TALON.md"]) :=
  have h := add_twice_single_entry (fun c => c) stateW
    (addTalon (fun c => c) okOracle stateW ["s"]).1
    (addTalon (fun c => c) okOracle
      (addTalon (fun c => c) okOracle stateW ["s"]).1 ["s"]).1
    (addTalon (fun c => c) okOracle stateW ["s"]).2
    (addTalon (fun c => c) okOracle
      (addTalon (fun c => c) okOracle stateW ["s"]).1 ["s"]).2
    ["s"] (some manifestW) (some manifestW) manifestW manifestW "n"
    rfl rfl rfl rfl rfl rfl rfl rfl rfl rfl
  ⟨h.1, h.2.1, h.2.2.1, h.2.2.2 ["reg", "n", "TALON.md"] rfl (by decide)⟩

end Talon
